import Mathlib

/-!
Verification development for the media ingestion and lifecycle pipeline of
`app.py` (timeline publishing site).  The Python source is shallowly embedded:
pure/string computations become Lean functions, the SQLite metadata store and
the versioned S3-compatible object store become explicit state records, and
external collaborators (yt-dlp probe/download, ffmpeg, per-object transport
outcomes) become oracle fields of an environment record.  Machine floats only
pass through the pipeline (durations), so they are modelled as `Nat`.
-/

/-! ## Basic string helpers (Python `str` operations used by the source) -/

/-- Python `s.startswith(p)` / the S3 `Prefix=` match, via the character data
of the strings (kernel-reducible). -/
def startsWithS (s p : String) : Bool := p.data.isPrefixOf s.data

/-- Python `s.endswith(p)`, via character data. -/
def endsWithS (s p : String) : Bool := p.data.isSuffixOf s.data

/-- ASCII lower-casing of one character (the filenames handled by the source
are ASCII, so this matches Python `str.lower` on them). -/
def lowerChar (c : Char) : Char :=
  if 65 ≤ c.toNat ∧ c.toNat ≤ 90 then Char.ofNat (c.toNat + 32) else c

/-- Python `s.lower()` (ASCII range). -/
def toLowerS (s : String) : String := ⟨s.data.map lowerChar⟩

/-- Python `s.rstrip('/')`: drop every trailing `'/'`. -/
def rstripSlash (s : String) : String := ⟨(s.data.reverse.dropWhile (· = '/')).reverse⟩

/-- `os.path.splitext(name)[0]` for names that do not start with a dot: the
part before the last `'.'`, or the whole name when it has no dot. -/
def dropExt (s : String) : String :=
  let rev := s.data.reverse
  let tail := rev.dropWhile (· ≠ '.')
  if tail.isEmpty then s else ⟨(tail.drop 1).reverse⟩

/-- ASCII digit test (`[0-9]`), as used by the `\d` regex class on these
inputs. -/
def digitB (c : Char) : Bool := 48 ≤ c.toNat && c.toNat ≤ 57

/-- Numeric value of an ASCII digit. -/
def digitVal (c : Char) : Nat := c.toNat - 48

/-! ## The three regular expressions of the source

`fetch_event_videos_map` sorts with `re.search(r"(\d{3,4})p", label)`;
ingestion derives labels with `re.search(r"_(\d{3,4})p\.", name)`; and the
final variant sort in `ingest_twitch_clip_to_b2` uses the (buggy) pattern
`r"(\ \d{3,4})p"` written with a doubled backslash, which matches a literal
backslash followed by three or four literal `d` characters and a `p`.
Each matcher below implements Python's leftmost search with the greedy,
backtracking `{3,4}` counted repetition. -/

/-- Match `(\d{3,4})p` anchored at the head of the character list (greedy:
four digits tried before three), returning the numeric value of the group. -/
def qMatchAt : List Char → Option Nat
  | c1 :: c2 :: c3 :: c4 :: c5 :: _ =>
    if digitB c1 && digitB c2 && digitB c3 then
      if digitB c4 then
        if c5 = 'p' then
          some (digitVal c1 * 1000 + digitVal c2 * 100 + digitVal c3 * 10 + digitVal c4)
        else none
      else if c4 = 'p' then
        some (digitVal c1 * 100 + digitVal c2 * 10 + digitVal c3)
      else none
    else none
  | [c1, c2, c3, c4] =>
    if digitB c1 && digitB c2 && digitB c3 then
      if digitB c4 then none
      else if c4 = 'p' then
        some (digitVal c1 * 100 + digitVal c2 * 10 + digitVal c3)
      else none
    else none
  | _ => none

/-- Leftmost search for `(\d{3,4})p`. -/
def qSearch : List Char → Option Nat
  | [] => none
  | c :: cs =>
    match qMatchAt (c :: cs) with
    | some n => some n
    | none => qSearch cs

/-- `quality_key` of `fetch_event_videos_map`: parsed height of the quality
label, `0` when the pattern `(\d{3,4})p` does not occur. -/
def quality_key (label : String) : Nat := (qSearch label.data).getD 0

/-- Match `_(\d{3,4})p\.` anchored at the head of the character list. -/
def fMatchAt : List Char → Option Nat
  | u :: c1 :: c2 :: c3 :: rest =>
    if u = '_' && (digitB c1 && digitB c2 && digitB c3) then
      match rest with
      | c4 :: c5 :: c6 :: _ =>
        if digitB c4 then
          if c5 = 'p' && c6 = '.' then
            some (digitVal c1 * 1000 + digitVal c2 * 100 + digitVal c3 * 10 + digitVal c4)
          else none
        else if c4 = 'p' && c5 = '.' then
          some (digitVal c1 * 100 + digitVal c2 * 10 + digitVal c3)
        else none
      | [c4, c5] =>
        if digitB c4 then none
        else if c4 = 'p' && c5 = '.' then
          some (digitVal c1 * 100 + digitVal c2 * 10 + digitVal c3)
        else none
      | _ => none
    else none
  | _ => none

/-- Leftmost search for `_(\d{3,4})p\.` (height embedded in a downloaded
file name). -/
def fSearch : List Char → Option Nat
  | [] => none
  | c :: cs =>
    match fMatchAt (c :: cs) with
    | some n => some n
    | none => fSearch cs

/-- Match the buggy pattern at the head: a literal backslash, then three or
four literal `d` characters (greedy), then `p`. -/
def bMatchAt : List Char → Bool
  | b :: d1 :: d2 :: d3 :: rest =>
    if b = '\\' && (d1 = 'd' && d2 = 'd' && d3 = 'd') then
      match rest with
      | c4 :: c5 :: _ => if c4 = 'd' then c5 = 'p' else c4 = 'p'
      | [c4] => c4 = 'p'
      | [] => false
    else false
  | _ => false

/-- Leftmost search for the buggy pattern `\ \d{3,4}p`-with-literal-backslash
(as the doubled backslash in the raw string makes it). -/
def bSearch : List Char → Bool
  | [] => false
  | c :: cs => bMatchAt (c :: cs) || bSearch cs

/-! ## Stable descending sort (Python `list.sort(key=…, reverse=True)`)

Python's sort is stable; a stable sort descending on a `Nat` key is
realised by insertion placing each element before the first already-placed
element whose key is `≤` its own (elements inserted earlier originate
earlier in the input). -/

/-- Insert `x` before the first element whose key is `≤ key x`. -/
def insertDesc (key : α → Nat) (x : α) : List α → List α
  | [] => [x]
  | y :: ys => if key y ≤ key x then x :: y :: ys else y :: insertDesc key x ys

/-- Stable sort by descending `key` (embeds `lst.sort(key=…, reverse=True)`
and `sorted(…, key=…, reverse=True)`). -/
def sortDesc (key : α → Nat) : List α → List α
  | [] => []
  | x :: xs => insertDesc key x (sortDesc key xs)

/-! ## Versioned object store (S3-compatible bucket, as used via boto3)

A versioned bucket is a list of versions in creation order; a key is live
when its most recent version is not a delete marker.  `delete_object`
without a version id always succeeds (given transport) and appends a delete
marker — also for a key that does not exist; `delete_object` with a version
id removes that one version or marker.  Transport/auth failures of the
delete calls are an oracle. -/

structure ObjVersion where
  key : String
  versionId : Nat
  isDeleteMarker : Bool
deriving Repr, DecidableEq

structure Store where
  versions : List ObjVersion
  nextVid : Nat
deriving Repr, DecidableEq

/-- `s3.upload_file`: stores a new current version of the key. -/
def putObject (st : Store) (k : String) : Store :=
  { versions := st.versions ++ [{ key := k, versionId := st.nextVid, isDeleteMarker := false }],
    nextVid := st.nextVid + 1 }

/-- `s3.delete_object(Bucket, Key=k)` on a versioned bucket: appends a
delete marker (succeeds also when the key does not exist). -/
def addMarker (st : Store) (k : String) : Store :=
  { versions := st.versions ++ [{ key := k, versionId := st.nextVid, isDeleteMarker := true }],
    nextVid := st.nextVid + 1 }

/-- `s3.delete_object(Bucket, Key=k, VersionId=v)`: removes that version or
marker (version ids are unique by construction). -/
def removeVersion (st : Store) (k : String) (vid : Nat) : Store :=
  { st with versions := st.versions.filter (fun v => !(v.key == k && v.versionId == vid)) }

/-- Most recent version of a key (the appends above make "latest" the last
occurrence in the list). -/
def lastVersionOf (st : Store) (k : String) : Option ObjVersion :=
  st.versions.reverse.find? (fun v => v.key == k)

def isLive (st : Store) (k : String) : Bool :=
  match lastVersionOf st k with
  | some v => !v.isDeleteMarker
  | none => false

/-- Each distinct key of a list (a paginated S3 listing reports each key
once; the listing order — ASCII order in S3 — is irrelevant to every
property proved here, so first-occurrence order is not preserved). -/
def distinctKeys : List String → List String
  | [] => []
  | k :: ks => if k ∈ distinctKeys ks then distinctKeys ks else k :: distinctKeys ks

/-- `s3_list_keys_with_prefix` (fully drained `list_objects_v2`): the live
keys under a prefix. -/
def liveKeysUnder (st : Store) (p : String) : List String :=
  (distinctKeys (st.versions.map (·.key))).filter (fun k => startsWithS k p && isLive st k)

/-- Fully drained `list_object_versions`: every version and delete marker
whose key has the given prefix. -/
def versionsUnder (st : Store) (p : String) : List ObjVersion :=
  st.versions.filter (fun v => startsWithS v.key p)

/-- Transport success/failure of each object-store delete call. -/
structure StoreOracle where
  delCurrentOk : String → Bool
  delVersionOk : String → Nat → Bool

def allOk : StoreOracle := { delCurrentOk := fun _ => true, delVersionOk := fun _ _ => true }

/-! ## Metadata store (SQLite)

Only the media-relevant columns are modelled.  `PRAGMA foreign_keys=ON` is
issued only on the initialisation connection in the source
(`ensure_database_initialized`); the per-request connections of
`get_db_connection` never enable it, so `ON DELETE CASCADE` from
`event_videos` to `events` does not fire at runtime: `delete_event` removes
only the `events` row. -/

structure EventRow where
  id : Nat
  video_url : String
  thumbnail_url : Option String
  original_clip_url : Option String
deriving Repr, DecidableEq

structure VideoRow where
  event_id : Nat
  quality_label : String
  mime : String
  filesize : Nat
  duration_s : Nat
  b2_key : String
  public_url : String
deriving Repr, DecidableEq

structure Db where
  events : List EventRow
  eventVideos : List VideoRow
  nextId : Nat
deriving Repr, DecidableEq

/-- `create_event` (placeholder: media columns empty): returns the fresh
AUTOINCREMENT id. -/
def create_event (db : Db) (video_url : String) : Nat × Db :=
  (db.nextId,
   { db with
       events := db.events ++ [{ id := db.nextId, video_url := video_url,
                                 thumbnail_url := none, original_clip_url := none }],
       nextId := db.nextId + 1 })

/-- `add_event_video`: inserts one variant row. -/
def add_event_video (db : Db) (r : VideoRow) : Db :=
  { db with eventVideos := db.eventVideos ++ [r] }

/-- `delete_event`: removes the `events` row; the variant rows survive
because foreign-key enforcement is off on this connection (see above). -/
def delete_event (db : Db) (eid : Nat) : Bool × Db :=
  (db.events.any (fun e => e.id == eid),
   { db with events := db.events.filter (fun e => !(e.id == eid)) })

/-- The per-event branch of `fetch_event_videos_map`: the event's variant
rows in insertion order, stably sorted by descending `quality_key`. -/
def fetch_event_videos_sorted (db : Db) (eid : Nat) : List VideoRow :=
  sortDesc (fun r => quality_key r.quality_label)
    (db.eventVideos.filter (fun r => r.event_id == eid))

/-! ## DeletionPurger (`admin_events_delete` storage section + `delete_event`) -/

/-- Accumulator of the best-effort deletion loops: the `(deleted, errors)`
counters of the source, the object store, and (model instrumentation) the
number of delete calls attempted. -/
structure PurgeAcc where
  deleted : Nat
  errors : Nat
  attempts : Nat
  store : Store
deriving Repr

/-- One counted `try: s3.delete_object(..Key=k..) except: errors += 1`. -/
def delCurrent (o : StoreOracle) (a : PurgeAcc) (k : String) : PurgeAcc :=
  if o.delCurrentOk k then
    { a with deleted := a.deleted + 1, attempts := a.attempts + 1, store := addMarker a.store k }
  else
    { a with errors := a.errors + 1, attempts := a.attempts + 1 }

/-- One counted `try: s3.delete_object(..Key=k, VersionId=vid..) except:`. -/
def delVersion (o : StoreOracle) (a : PurgeAcc) (k : String) (vid : Nat) : PurgeAcc :=
  if o.delVersionOk k vid then
    { a with deleted := a.deleted + 1, attempts := a.attempts + 1,
             store := removeVersion a.store k vid }
  else
    { a with errors := a.errors + 1, attempts := a.attempts + 1 }

/-- `s3_delete_all_versions_with_prefix`: hard-delete every version and then
every delete marker under a prefix (the listing is a snapshot of the
response; the code iterates `Versions` before `DeleteMarkers`). -/
def s3_delete_all_versions_acc (o : StoreOracle) (p : String) (a : PurgeAcc) : PurgeAcc :=
  let snap := versionsUnder a.store p
  let a1 := (snap.filter (fun v => !v.isDeleteMarker)).foldl
    (fun acc v => delVersion o acc v.key v.versionId) a
  (snap.filter (fun v => v.isDeleteMarker)).foldl
    (fun acc v => delVersion o acc v.key v.versionId) a1

/-- `s3_hard_delete_key_all_versions` body on an accumulator: list versions
with `Prefix=key`, skip entries whose key is not exactly `key`, delete the
rest (versions first, then markers), passing `Key=key` and the listed
version id. -/
def s3_hard_delete_key_acc (o : StoreOracle) (k : String) (a : PurgeAcc) : PurgeAcc :=
  let snap := (versionsUnder a.store k).filter (fun v => v.key == k)
  let a1 := (snap.filter (fun v => !v.isDeleteMarker)).foldl
    (fun acc v => delVersion o acc k v.versionId) a
  (snap.filter (fun v => v.isDeleteMarker)).foldl
    (fun acc v => delVersion o acc k v.versionId) a1

/-- `s3_hard_delete_key_all_versions` as the standalone function of the
source: returns `(deleted, errors)` and the store. -/
def s3_hard_delete_key_all_versions (st : Store) (o : StoreOracle) (k : String) :
    (Nat × Nat) × Store :=
  let a := s3_hard_delete_key_acc o k { deleted := 0, errors := 0, attempts := 0, store := st }
  ((a.deleted, a.errors), a.store)

/-- Step 1's key list: the event's recorded non-empty variant keys, then the
conventional thumbnail key and the two folder-marker spellings. -/
def purgeExplicitKeys (db : Db) (eid : Nat) : List String :=
  ((db.eventVideos.filter
      (fun r => r.event_id == eid && !(r.b2_key == ""))).map (·.b2_key)) ++
    ["clips/" ++ toString eid ++ "/" ++ "thumb.jpg",
     "clips/" ++ toString eid, "clips/" ++ toString eid ++ "/"]

/-- Steps 2–5 of the storage section, from the accumulator left by step 1:
prefix sweep of live keys, version purge under the prefix, hard purge of the
two folder-marker keys, and the final uncounted plain delete of each marker
key (`except: pass`; on success it appends a fresh delete marker). -/
def purge_rest (o : StoreOracle) (eid : Nat) (a1 : PurgeAcc) : PurgeAcc :=
  let pre := "clips/" ++ toString eid ++ "/"
  let a2 := (liveKeysUnder a1.store pre).foldl (delCurrent o) a1
  let a3 := s3_delete_all_versions_acc o pre a2
  let a4 := ["clips/" ++ toString eid, "clips/" ++ toString eid ++ "/"].foldl
    (fun a m => s3_hard_delete_key_acc o m a) a3
  ["clips/" ++ toString eid, "clips/" ++ toString eid ++ "/"].foldl
    (fun a m => if o.delCurrentOk m then { a with store := addMarker a.store m } else a) a4

/-- Storage section of `admin_events_delete` (steps 1–5). -/
def purge_storage (db : Db) (st : Store) (o : StoreOracle) (eid : Nat) : PurgeAcc :=
  purge_rest o eid ((purgeExplicitKeys db eid).foldl (delCurrent o)
    { deleted := 0, errors := 0, attempts := 0, store := st })

structure PurgeOutcome where
  counts : Nat × Nat
  attempts : Nat
  db : Db
  store : Store
deriving Repr

/-- `admin_events_delete`: best-effort storage purge, then removal of the
`events` row; the route never re-raises (the storage section's per-object
failures are counted, and its own fallible primitives are all handled). -/
def admin_events_delete (db : Db) (st : Store) (o : StoreOracle) (eid : Nat) : PurgeOutcome :=
  let a := purge_storage db st o eid
  let db2 := (delete_event db eid).2
  { counts := (a.deleted, a.errors), attempts := a.attempts, db := db2, store := a.store }

/-! ## IngestionOrchestrator — remote-clip path (`ingest_twitch_clip_to_b2`)

External collaborators become oracles: the yt-dlp probe (`extract_info`,
metadata only), the downloader (which fills the scratch directory), the
per-key video upload transport, and the per-variant thumbnail
extraction-and-upload (one `try` block in the source).  The probe's
thumbnail hint (`thumb_url`) is computed by the source but never used
afterwards, so it is not modelled. -/

structure ProbeInfo where
  id : String
  duration : Nat

structure DlFile where
  name : String
  isFile : Bool
  size : Nat
deriving Repr, DecidableEq

structure IngestEnv where
  probe : Option ProbeInfo     -- `none`: `extract_info` raises (ProbeError)
  downloadOk : Bool            -- `false`: `ydl.download` raises (DownloadError)
  files : List DlFile          -- `os.listdir(tmpdir)` after the download, in discovery order
  uploadOk : String → Bool     -- video `upload_file` transport, per key (`false` raises)
  thumbOk : String → Bool      -- thumbnail extract+upload, per thumb key (`false` raises inside the `try`)

structure StoredObject where
  key : String
  contentType : String
deriving Repr, DecidableEq

structure Variant where
  quality_label : String
  mime : String
  filesize : Nat
  duration_s : Nat
  b2_key : String
  public_url : String
deriving Repr, DecidableEq

structure Config where
  bucket : String
  publicBase : String

structure IngestState where
  variants : List Variant
  thumbs : List (Nat × String)   -- `thumbs_info`: (height, thumbnail key)
  uploads : List StoredObject    -- trace of every `upload_file` that succeeded
  store : Store

/-- Per-file loop of `ingest_twitch_clip_to_b2` over the collected
candidates, parameterised by the video-upload and thumbnail oracles of the
environment.  Returns the state and whether an (uncaught) video-upload
exception aborted the loop. -/
def ingestLoop (cfg : Config) (upOk thOk : String → Bool) (basePref clip_id : String)
    (duration : Nat) : List DlFile → IngestState → IngestState × Bool
  | [], s => (s, false)
  | f :: fs, s =>
    if !f.isFile then ingestLoop cfg upOk thOk basePref clip_id duration fs s
    else if f.size == 0 then ingestLoop cfg upOk thOk basePref clip_id duration fs s
    else
      let mh := fSearch f.name.data
      let hlabel := match mh with | some n => toString n ++ "p" | none => "best"
      let hnum := mh.getD 0
      let name := if endsWithS (toLowerS f.name) ".mp4" then f.name
                  else dropExt f.name ++ ".mp4"
      let key := basePref ++ name
      if !upOk key then (s, true)   -- exception propagates to the caller
      else
        let s1 : IngestState :=
          { s with store := putObject s.store key,
                   uploads := s.uploads ++ [{ key := key, contentType := "video/mp4" }] }
        let tkey := basePref ++ clip_id ++ "_thumb_" ++ hlabel ++ ".jpg"
        let s2 : IngestState :=
          if thOk tkey then
            { s1 with store := putObject s1.store tkey,
                      uploads := s1.uploads ++ [{ key := tkey, contentType := "image/jpeg" }],
                      thumbs := s1.thumbs ++ [(hnum, tkey)] }
          else s1   -- `except Exception: pass`
        let v : Variant :=
          { quality_label := hlabel, mime := "video/mp4", filesize := f.size,
            duration_s := duration, b2_key := key,
            public_url := rstripSlash cfg.publicBase ++ "/" ++ key }
        ingestLoop cfg upOk thOk basePref clip_id duration fs
          { s2 with variants := s2.variants ++ [v] }

/-- The final sort `variants.sort(key=_qk, reverse=True)`: `_qk` searches the
label for the pattern written `r"(\ \d{3,4})p"` with a doubled backslash.
On a match, `int(m.group(1))` would raise `ValueError` (the group contains a
backslash); on no match every key is `0`, so the stable sort is the
identity. -/
def sortVariantsBuggy (vs : List Variant) : Except Unit (List Variant) :=
  if vs.any (fun v => bSearch v.quality_label.data) then .error ()
  else .ok (sortDesc (fun _ => 0) vs)

structure IngestOutcome where
  result : Except Unit (String × List Variant)   -- `(clip_id, variants)` or a raised error
  bestThumb : Option String   -- `variants[0]["__thumbnail_url__"]` when attached
  uploads : List StoredObject
  store : Store
  scratchRemoved : Bool       -- whether the scratch dir was removed on this exit path

/-- Post-loop tail of `ingest_twitch_clip_to_b2`: best generated thumbnail
(the stable descending `sorted(..)[0]`, i.e. highest height, earliest on a
tie), zero-variant check (`raise RuntimeError("No variants could be
uploaded")`), the (buggy) best-first sort, and the result assembly with the
best-thumbnail URL attached alongside `variants[0]`. -/
def ingestPost (cfg : Config) (clip_id : String) (r : IngestState × Bool) : IngestOutcome :=
  let s := r.1
  if r.2 then
    { result := .error (), bestThumb := none, uploads := s.uploads, store := s.store,
      scratchRemoved := true }
  else
    let thumbP := (sortDesc (fun t => t.1) s.thumbs).head?.map
      (fun t => rstripSlash cfg.publicBase ++ "/" ++ t.2)
    if s.variants.isEmpty then
      { result := .error (), bestThumb := none, uploads := s.uploads, store := s.store,
        scratchRemoved := true }
    else
      match sortVariantsBuggy s.variants with
      | .error _ =>
        { result := .error (), bestThumb := none, uploads := s.uploads, store := s.store,
          scratchRemoved := true }
      | .ok vs =>
        { result := .ok (clip_id, vs), bestThumb := thumbP, uploads := s.uploads,
          store := s.store, scratchRemoved := true }

/-- `ingest_twitch_clip_to_b2`: probe, download, per-variant upload and
best-effort thumbnail, then the `ingestPost` tail.  The `try/finally`
removes the scratch directory on every exit path. -/
def ingest_twitch_clip_to_b2 (cfg : Config) (env : IngestEnv) (dest : Option Nat)
    (st : Store) : IngestOutcome :=
  match env.probe with
  | none =>
    { result := .error (), bestThumb := none, uploads := [], store := st, scratchRemoved := true }
  | some info =>
    if !env.downloadOk then
      { result := .error (), bestThumb := none, uploads := [], store := st, scratchRemoved := true }
    else
      let clip_id := if info.id == "" then "clip" else info.id
      let basePref := match dest with
        | some e => "clips/" ++ toString e ++ "/"
        | none => "clips/" ++ clip_id ++ "/"
      let cands := env.files.filter
        (fun f => startsWithS f.name (clip_id ++ "_") && !endsWithS f.name ".download")
      let s0 : IngestState := { variants := [], thumbs := [], uploads := [], store := st }
      ingestPost cfg clip_id
        (ingestLoop cfg env.uploadOk env.thumbOk basePref clip_id info.duration cands s0)

/-! ## Caller: `admin_events_new`, remote-clip branch -/

structure AdminOutcome where
  result : Except Unit Unit
  db : Db
  store : Store
  ingest : IngestOutcome

/-- Rollback loop of the `except` branch: plain-delete each listed key; the
first transport failure aborts the loop (the whole cleanup sits in one
`try … except Exception: pass`). -/
def cleanupDeletes (st : Store) (cleanOk : String → Bool) : List String → Store
  | [] => st
  | k :: ks => if cleanOk k then cleanupDeletes (addMarker st k) cleanOk ks else st

/-- Remote-clip branch of `admin_events_new`: create the placeholder event,
ingest into `clips/<event_id>/`; on failure delete the placeholder row and
plain-delete the live keys under the prefix; on success write
`original_clip_url`/`thumbnail_url`/`video_url` (the latter from
`variants[0]`) and insert the variant rows in list order. -/
def admin_events_new_clip (cfg : Config) (env : IngestEnv) (cleanOk : String → Bool)
    (clip_url : String) (db : Db) (st : Store) : AdminOutcome :=
  let (eid, db1) := create_event db ""
  let out := ingest_twitch_clip_to_b2 cfg env (some eid) st
  match out.result with
  | .error _ =>
    let db2 := (delete_event db1 eid).2
    let st2 := cleanupDeletes out.store cleanOk
      (liveKeysUnder out.store ("clips/" ++ toString eid ++ "/"))
    { result := .error (), db := db2, store := st2, ingest := out }
  | .ok (_, vs) =>
    let first_url := ((vs.head?).map (·.public_url)).getD ""
    let db2 : Db :=
      { db1 with events := db1.events.map (fun e =>
          if e.id == eid then
            { e with video_url := first_url, original_clip_url := some clip_url,
                     thumbnail_url := match out.bestThumb with
                       | some t => some t
                       | none => e.thumbnail_url }
          else e) }
    let db3 := vs.foldl (fun d v => add_event_video d { v with event_id := eid }) db2
    { result := .ok (), db := db3, store := out.store, ingest := out }

/-! ## `admin_events_new`, manual-upload branch

The scratch directory of this branch is removed by a plain
`shutil.rmtree` at the end of the success path only — there is no
`try/finally` — so an exception (e.g. the video `upload_file` raising)
leaves it behind.  The `ffprobe` height probe and the thumbnail step have
their own `except` handlers and cannot leak it. -/

structure UploadEnv where
  filename : String
  filesize : Nat
  probeHeight : Option Nat   -- `none`: ffprobe raised or printed nothing
  uploadOk : Bool            -- video `upload_file` transport (`false` raises, uncaught)
  thumbOk : Bool             -- ffmpeg frame grab + thumbnail upload (caught)

structure UploadOutcome where
  result : Except Unit Unit
  db : Db
  store : Store
  uploads : List StoredObject
  scratchRemoved : Bool

def admin_events_new_upload (cfg : Config) (env : UploadEnv) (db : Db) (st : Store) :
    UploadOutcome :=
  let (eid, db1) := create_event db ""
  let base := rstripSlash cfg.publicBase
  let label := match env.probeHeight with
    | some h => if h == 0 then "source" else toString h ++ "p"
    | none => "source"
  let key := "clips/" ++ toString eid ++ "/" ++ toString eid ++ ".mp4"
  if !env.uploadOk then
    -- exception propagates: scratch dir not removed, placeholder row left
    { result := .error (), db := db1, store := st, uploads := [], scratchRemoved := false }
  else
    let st1 := putObject st key
    let pub := base ++ "/" ++ key
    let tkey := "clips/" ++ toString eid ++ "/thumb.jpg"
    let (st2, thumbP, ups) :=
      if env.thumbOk then
        (putObject st1 tkey, some (base ++ "/" ++ tkey),
         ([{ key := key, contentType := "video/mp4" },
           { key := tkey, contentType := "image/jpeg" }] : List StoredObject))
      else (st1, none, ([{ key := key, contentType := "video/mp4" }] : List StoredObject))
    let db2 : Db :=
      { db1 with events := db1.events.map (fun e =>
          if e.id == eid then
            { e with video_url := pub,
                     thumbnail_url := match thumbP with
                       | some t => some t
                       | none => e.thumbnail_url }
          else e) }
    let db3 := add_event_video db2
      { event_id := eid, quality_label := label, mime := "video/mp4",
        filesize := env.filesize, duration_s := 0, b2_key := key, public_url := pub }
    { result := .ok (), db := db3, store := st2, uploads := ups, scratchRemoved := true }

/-! ## IconProcessor (`upload_streamer_icon`) -/

inductive IconError
  | decodeFailed   -- `Image.open` raised
  | notSquare      -- "Icon must be square (width must equal height)"
  | tooSmall       -- "Icon too small (minimum 32×32)"
deriving Repr, DecidableEq

/-- `upload_streamer_icon` processing: decode, squareness, minimum edge,
downscale-into-128 (PIL `thumbnail` on a square image yields exactly
128×128), re-encode as PNG, upload at the streamer's fixed key.  Returns
the output dimensions, object key and content type.  (The scratch
directory of this function sits in a `try/finally` and is always
removed.) -/
def upload_streamer_icon (decoded : Option (Nat × Nat)) (streamer_id : Nat) :
    Except IconError ((Nat × Nat) × String × String) :=
  match decoded with
  | none => .error .decodeFailed
  | some (w, h) =>
    if w ≠ h then .error .notSquare
    else if w < 32 ∨ h < 32 then .error .tooSmall
    else
      let dims := if w > 128 ∨ h > 128 then (128, 128) else (w, h)
      .ok (dims, "assets/icons/streamer_" ++ toString streamer_id ++ ".png", "image/png")

/-- Membership test on a list of version ids (`vid in listed-ids`). -/
def memB (x : Nat) : List Nat → Bool
  | [] => false
  | y :: ys => x == y || memB x ys

def c3db : Db :=
  { events := [{ id := 5, video_url := "u", thumbnail_url := none, original_clip_url := none }],
    eventVideos := [{ event_id := 5, quality_label := "720p", mime := "video/mp4",
                      filesize := 100, duration_s := 30, b2_key := "clips/5/5.mp4",
                      public_url := "u" }],
    nextId := 6 }

def c3st : Store :=
  { versions := [{ key := "clips/5/5.mp4", versionId := 0, isDeleteMarker := false }],
    nextVid := 1 }

def c6cfg : Config := { bucket := "b", publicBase := "https://cdn" }

def c6envFail : UploadEnv :=
  { filename := "v.mp4", filesize := 10, probeHeight := some 720,
    uploadOk := false, thumbOk := true }

def c6envOk : UploadEnv :=
  { filename := "v.mp4", filesize := 10, probeHeight := some 720,
    uploadOk := true, thumbOk := true }

def c6db : Db := { events := [], eventVideos := [], nextId := 1 }

def c6st : Store := { versions := [], nextVid := 0 }

def c1cfg : Config := { bucket := "b", publicBase := "https://cdn" }

def c1env : IngestEnv :=
  { probe := some { id := "abc", duration := 30 }, downloadOk := true,
    files := [{ name := "abc_360p.mp4", isFile := true, size := 1000 },
              { name := "abc_720p.mp4", isFile := true, size := 2000 }],
    uploadOk := fun _ => true, thumbOk := fun _ => true }

def c1db : Db := { events := [], eventVideos := [], nextId := 7 }

def c1st : Store := { versions := [], nextVid := 0 }

def c7env : IngestEnv :=
  { probe := none, downloadOk := true, files := [],
    uploadOk := fun _ => true, thumbOk := fun _ => true }

def c7cfg : Config := { bucket := "b", publicBase := "https://cdn" }

def c7db : Db := { events := [], eventVideos := [], nextId := 1 }

def c7st : Store := { versions := [], nextVid := 0 }

/-! ## Theorems -/
theorem mem_insertDesc {key : α → Nat} {x z : α} {l : List α} :
    z ∈ insertDesc key x l ↔ z = x ∨ z ∈ l := by
  induction l with
  | nil => simp [insertDesc]
  | cons y ys ih =>
    by_cases h : key y ≤ key x
    · simp [insertDesc, h]
    · simp only [insertDesc, if_neg h, List.mem_cons, ih]
      tauto

theorem pairwise_insertDesc {key : α → Nat} {x : α} {l : List α}
    (h : List.Pairwise (fun a b => key b ≤ key a) l) :
    List.Pairwise (fun a b => key b ≤ key a) (insertDesc key x l) := by
  induction l with
  | nil => simp [insertDesc]
  | cons y ys ih =>
    rcases List.pairwise_cons.mp h with ⟨hy, hys⟩
    by_cases hk : key y ≤ key x
    · rw [insertDesc, if_pos hk]
      refine List.pairwise_cons.mpr ⟨?_, h⟩
      intro z hz
      rcases List.mem_cons.mp hz with rfl | hz'
      · exact hk
      · exact le_trans (hy z hz') hk
    · rw [insertDesc, if_neg hk]
      refine List.pairwise_cons.mpr ⟨?_, ih hys⟩
      intro z hz
      rcases mem_insertDesc.mp hz with rfl | hz'
      · exact le_of_lt (Nat.lt_of_not_le hk)
      · exact hy z hz'

theorem pairwise_sortDesc (key : α → Nat) (l : List α) :
    List.Pairwise (fun a b => key b ≤ key a) (sortDesc key l) := by
  induction l with
  | nil => simp [sortDesc]
  | cons x xs ih => exact pairwise_insertDesc ih

theorem filter_insertDesc (key : α → Nat) (n : Nat) (x : α) (l : List α) :
    (insertDesc key x l).filter (fun r => key r == n) =
      if key x = n then x :: l.filter (fun r => key r == n)
      else l.filter (fun r => key r == n) := by
  induction l with
  | nil =>
    by_cases hx : key x = n <;> simp [insertDesc, List.filter_cons, hx]
  | cons y ys ih =>
    by_cases h : key y ≤ key x
    · rw [insertDesc, if_pos h]
      by_cases hx : key x = n <;> simp [List.filter_cons, hx]
    · rw [insertDesc, if_neg h]
      have hxy : key x < key y := Nat.lt_of_not_le h
      by_cases hx : key x = n
      · have hyn : key y ≠ n := by omega
        have hyb : (key y == n) = false := by simpa using hyn
        simp [List.filter_cons, hyb, ih, hx]
      · rw [List.filter_cons, ih, if_neg hx, List.filter_cons, if_neg hx]

/-- Stability: the subsequence of elements whose key equals any fixed value
is unchanged by the sort (in particular, equal-key elements keep their
original relative order). -/
theorem filter_sortDesc (key : α → Nat) (n : Nat) (l : List α) :
    (sortDesc key l).filter (fun r => key r == n) =
      l.filter (fun r => key r == n) := by
  induction l with
  | nil => rfl
  | cons x xs ih =>
    by_cases hx : key x = n
    · have hxb : (key x == n) = true := by simpa using hx
      simp [sortDesc, filter_insertDesc, hx, hxb, List.filter_cons, ih]
    · have hxb : (key x == n) = false := by simpa using hx
      simp [sortDesc, filter_insertDesc, hx, hxb, List.filter_cons, ih]

/-- A stable sort whose key is constant is the identity (the situation of
the buggy final variant sort, whose key evaluates to `0` on every label). -/
theorem sortDesc_const_zero (l : List α) : sortDesc (fun _ => 0) l = l := by
  induction l with
  | nil => rfl
  | cons x xs ih =>
    have h : ∀ m : List α, insertDesc (fun _ => 0) x m = x :: m := by
      intro m; cases m <;> simp [insertDesc]
    simp [sortDesc, ih, h]

/-! ## Generic fold lemmas -/

theorem foldl_inv {α β : Type _} {P : β → Prop} {f : β → α → β}
    (h : ∀ b a, P b → P (f b a)) :
    ∀ (l : List α) (b : β), P b → P (l.foldl f b) := by
  intro l
  induction l with
  | nil => intro b hb; exact hb
  | cons x xs ih => intro b hb; exact ih (f b x) (h b x hb)

/-! ## Accounting lemmas for the purge -/

theorem all_versions_acc_inv {P : PurgeAcc → Prop} (o : StoreOracle) (p : String)
    (hV : ∀ a k vid, P a → P (delVersion o a k vid)) (a : PurgeAcc) (ha : P a) :
    P (s3_delete_all_versions_acc o p a) := by
  unfold s3_delete_all_versions_acc
  exact foldl_inv (fun b v hb => hV b v.key v.versionId hb) _ _
    (foldl_inv (fun b v hb => hV b v.key v.versionId hb) _ _ ha)

theorem hard_key_acc_inv {P : PurgeAcc → Prop} (o : StoreOracle) (k : String)
    (hV : ∀ a k vid, P a → P (delVersion o a k vid)) (a : PurgeAcc) (ha : P a) :
    P (s3_hard_delete_key_acc o k a) := by
  unfold s3_hard_delete_key_acc
  exact foldl_inv (fun b v hb => hV b k v.versionId hb) _ _
    (foldl_inv (fun b v hb => hV b k v.versionId hb) _ _ ha)

/-- Every accumulator property preserved by the three primitive accumulator
transformations holds after the whole storage section. -/
theorem purge_storage_inv {P : PurgeAcc → Prop} (db : Db) (st : Store)
    (o : StoreOracle) (eid : Nat)
    (hC : ∀ a k, P a → P (delCurrent o a k))
    (hV : ∀ a k vid, P a → P (delVersion o a k vid))
    (hS : ∀ a k, P a → P { a with store := addMarker a.store k })
    (h0 : P { deleted := 0, errors := 0, attempts := 0, store := st }) :
    P (purge_storage db st o eid) := by
  unfold purge_storage purge_rest
  refine foldl_inv (fun b m hb => ?_) _ _
    (foldl_inv (fun b m hb => hard_key_acc_inv o m hV b hb) _ _
      (all_versions_acc_inv o _ hV _
        (foldl_inv (fun b k hb => hC b k hb) _ _
          (foldl_inv (fun b k hb => hC b k hb) _ _ h0))))
  dsimp only
  split
  · exact hS b m hb
  · exact hb

theorem balanced_purge_storage (db : Db) (st : Store) (o : StoreOracle) (eid : Nat) :
    (purge_storage db st o eid).deleted + (purge_storage db st o eid).errors
      = (purge_storage db st o eid).attempts := by
  refine purge_storage_inv (P := fun a => a.deleted + a.errors = a.attempts) db st o eid
    ?_ ?_ ?_ rfl
  · intro a k h; unfold delCurrent; split <;> simp <;> omega
  · intro a k vid h; unfold delVersion; split <;> simp <;> omega
  · intro a k h; simpa using h

theorem errors0_purge_storage (db : Db) (st : Store) (eid : Nat) :
    (purge_storage db st allOk eid).errors = 0 := by
  refine purge_storage_inv (P := fun a => a.errors = 0) db st allOk eid ?_ ?_ ?_ rfl
  · intro a k h; simp [delCurrent, allOk, h]
  · intro a k vid h; simp [delVersion, allOk, h]
  · intro a k h; simpa using h

theorem deleted_mono_delCurrent (o : StoreOracle) (a : PurgeAcc) (k : String) :
    a.deleted ≤ (delCurrent o a k).deleted := by
  unfold delCurrent; split <;> simp

theorem deleted_mono_delVersion (o : StoreOracle) (a : PurgeAcc) (k : String) (vid : Nat) :
    a.deleted ≤ (delVersion o a k vid).deleted := by
  unfold delVersion; split <;> simp

theorem deleted_mono_foldl {α : Type _} (f : PurgeAcc → α → PurgeAcc)
    (h : ∀ a x, a.deleted ≤ (f a x).deleted) :
    ∀ (l : List α) (a : PurgeAcc), a.deleted ≤ (l.foldl f a).deleted := by
  intro l
  induction l with
  | nil => intro a; exact le_refl _
  | cons x xs ih => intro a; exact le_trans (h a x) (ih (f a x))

theorem deleted_mono_all_versions (o : StoreOracle) (p : String) (a : PurgeAcc) :
    a.deleted ≤ (s3_delete_all_versions_acc o p a).deleted := by
  unfold s3_delete_all_versions_acc
  exact le_trans
    (deleted_mono_foldl _ (fun b (v : ObjVersion) => deleted_mono_delVersion o b v.key v.versionId) _ _)
    (deleted_mono_foldl _ (fun b (v : ObjVersion) => deleted_mono_delVersion o b v.key v.versionId) _ _)

theorem deleted_mono_hard (o : StoreOracle) (k : String) (a : PurgeAcc) :
    a.deleted ≤ (s3_hard_delete_key_acc o k a).deleted := by
  unfold s3_hard_delete_key_acc
  exact le_trans
    (deleted_mono_foldl _ (fun b (v : ObjVersion) => deleted_mono_delVersion o b k v.versionId) _ _)
    (deleted_mono_foldl _ (fun b (v : ObjVersion) => deleted_mono_delVersion o b k v.versionId) _ _)

theorem deleted_mono_step5 (o : StoreOracle) (a : PurgeAcc) (m : String) :
    a.deleted ≤
      (if o.delCurrentOk m then { a with store := addMarker a.store m } else a).deleted := by
  split <;> simp

theorem deleted_mono_purge_rest (o : StoreOracle) (eid : Nat) (a : PurgeAcc) :
    a.deleted ≤ (purge_rest o eid a).deleted := by
  unfold purge_rest
  exact le_trans
    (le_trans
      (le_trans
        (deleted_mono_foldl _ (fun b k => deleted_mono_delCurrent o b k) _ _)
        (deleted_mono_all_versions o _ _))
      (deleted_mono_foldl _ (fun b m => deleted_mono_hard o m b) _ _))
    (deleted_mono_foldl _ (fun b m => deleted_mono_step5 o b m) _ _)

theorem deleted_allOk_foldl_delCurrent :
    ∀ (l : List String) (a : PurgeAcc),
      (l.foldl (delCurrent allOk) a).deleted = a.deleted + l.length := by
  intro l
  induction l with
  | nil => intro a; simp
  | cons k ks ih =>
    intro a
    simp only [List.foldl_cons, ih, List.length_cons]
    simp [delCurrent, allOk]
    omega

/-- With every storage operation succeeding, a purge reports at least the
three unconditionally attempted conventional keys as deleted. -/
theorem purge_storage_deleted_ge_three (db : Db) (st : Store) (eid : Nat) :
    3 ≤ (purge_storage db st allOk eid).deleted := by
  unfold purge_storage
  refine le_trans ?_ (deleted_mono_purge_rest allOk eid _)
  rw [deleted_allOk_foldl_delCurrent]
  have hlen : 3 ≤ (purgeExplicitKeys db eid).length := by
    unfold purgeExplicitKeys
    simp
  omega

/-! ## String prefix lemmas -/

theorem sdata_append (a b : String) : (a ++ b).data = a.data ++ b.data := by
  cases a; cases b; rfl

theorem isPrefixOf_self_append (l m : List Char) : l.isPrefixOf (l ++ m) = true := by
  induction l with
  | nil => simp
  | cons c cs ih => simp [List.isPrefixOf_cons₂, ih]

theorem isPrefixOf_trans_append (p x y : List Char)
    (h : p.isPrefixOf x = true) : p.isPrefixOf (x ++ y) = true := by
  induction p generalizing x with
  | nil => simp
  | cons c cs ih =>
    cases x with
    | nil => simp at h
    | cons d ds =>
      simp only [List.isPrefixOf_cons₂, List.cons_append, Bool.and_eq_true] at h ⊢
      exact ⟨h.1, ih ds h.2⟩

theorem startsWithS_self_append (p r : String) : startsWithS (p ++ r) p = true := by
  unfold startsWithS
  rw [sdata_append]
  exact isPrefixOf_self_append _ _

theorem startsWithS_append_right (x y p : String) (h : startsWithS x p = true) :
    startsWithS (x ++ y) p = true := by
  unfold startsWithS at h ⊢
  rw [sdata_append]
  exact isPrefixOf_trans_append _ _ _ h

/-! ## List helper lemmas -/

theorem filter_eq_nil_of_all_false {α : Type _} {p : α → Bool} :
    ∀ {l : List α}, (∀ a ∈ l, p a = false) → l.filter p = [] := by
  intro l
  induction l with
  | nil => intro _; rfl
  | cons x xs ih =>
    intro h
    rw [List.filter_cons, h x (by simp)]
    exact ih (fun a ha => h a (by simp [ha]))

theorem filter_congr_mem {α : Type _} {p q : α → Bool} :
    ∀ {l : List α}, (∀ x ∈ l, p x = q x) → l.filter p = l.filter q := by
  intro l
  induction l with
  | nil => intro _; rfl
  | cons x xs ih =>
    intro h
    rw [List.filter_cons, List.filter_cons, h x (by simp),
      ih (fun y hy => h y (by simp [hy]))]

theorem memB_eq_true_of_mem {x : Nat} : ∀ {l : List Nat}, x ∈ l → memB x l = true := by
  intro l
  induction l with
  | nil => intro h; cases h
  | cons y ys ih =>
    intro h
    rcases List.mem_cons.mp h with rfl | h'
    · simp [memB]
    · simp [memB, ih h']

theorem memB_append (x : Nat) : ∀ (l m : List Nat),
    memB x (l ++ m) = (memB x l || memB x m) := by
  intro l m
  induction l with
  | nil => simp [memB]
  | cons y ys ih => simp [memB, ih, Bool.or_assoc]

/-! ## Object-store lemmas -/

theorem mem_distinctKeys : ∀ {l : List String} {a : String}, a ∈ distinctKeys l ↔ a ∈ l := by
  intro l
  induction l with
  | nil => intro a; simp [distinctKeys]
  | cons k ks ih =>
    intro a
    unfold distinctKeys
    by_cases h : k ∈ distinctKeys ks
    · rw [if_pos h]
      have hk : k ∈ ks := ih.mp h
      simp only [List.mem_cons, ih]
      constructor
      · exact fun ha => Or.inr ha
      · rintro (rfl | ha)
        · exact hk
        · exact ha
    · rw [if_neg h]
      simp [ih]

theorem isLive_addMarker_self (st : Store) (k : String) :
    isLive (addMarker st k) k = false := by
  unfold isLive lastVersionOf addMarker
  simp

theorem isLive_addMarker_other (st : Store) (k k' : String) (h : k' ≠ k) :
    isLive (addMarker st k) k' = isLive st k' := by
  unfold isLive lastVersionOf addMarker
  have hb : (({ key := k, versionId := st.nextVid, isDeleteMarker := true } : ObjVersion).key
      == k') = false := by
    simpa using fun he => h he.symm
  simp [List.find?_cons, hb]

theorem isLive_foldl_addMarker_not_mem :
    ∀ (ks : List String) (st : Store) (k : String), k ∉ ks →
      isLive (ks.foldl addMarker st) k = isLive st k := by
  intro ks
  induction ks with
  | nil => intro st k _; rfl
  | cons k0 ks ih =>
    intro st k hk
    have h1 : k ≠ k0 := fun he => hk (by simp [he])
    have h2 : k ∉ ks := fun he => hk (by simp [he])
    rw [List.foldl_cons, ih (addMarker st k0) k h2, isLive_addMarker_other st k0 k h1]

theorem isLive_foldl_addMarker_mem :
    ∀ (ks : List String) (st : Store) (k : String), k ∈ ks →
      isLive (ks.foldl addMarker st) k = false := by
  intro ks
  induction ks with
  | nil => intro st k h; cases h
  | cons k0 ks ih =>
    intro st k hk
    by_cases h : k ∈ ks
    · exact ih (addMarker st k0) k h
    · have hk0 : k = k0 := by
        rcases List.mem_cons.mp hk with rfl | h'
        · rfl
        · exact absurd h' h
      subst hk0
      rw [List.foldl_cons, isLive_foldl_addMarker_not_mem ks (addMarker st k) k h]
      exact isLive_addMarker_self st k

theorem map_key_foldl_addMarker :
    ∀ (ks : List String) (st : Store),
      (ks.foldl addMarker st).versions.map (·.key) = st.versions.map (·.key) ++ ks := by
  intro ks
  induction ks with
  | nil => intro st; simp
  | cons k0 ks ih =>
    intro st
    rw [List.foldl_cons, ih]
    simp [addMarker]

/-- Plain-deleting every live key under a prefix leaves no live key under
that prefix (the markers appended for one key do not revive any other). -/
theorem liveKeysUnder_after_mark (st : Store) (p : String) :
    liveKeysUnder ((liveKeysUnder st p).foldl addMarker st) p = [] := by
  have main : ∀ (L : List String), L = liveKeysUnder st p →
      liveKeysUnder (L.foldl addMarker st) p = [] := by
    intro L hL
    unfold liveKeysUnder
    apply filter_eq_nil_of_all_false
    intro k hk
    by_cases hmem : k ∈ L
    · rw [isLive_foldl_addMarker_mem _ _ _ hmem]
      simp
    · rw [isLive_foldl_addMarker_not_mem _ _ _ hmem]
      by_cases hs : startsWithS k p = true
      · cases hlive : isLive st k
        · simp [hs, hlive]
        · exfalso
          apply hmem
          have hk2 : k ∈ (st.versions.map (·.key)) ++ L := by
            have := mem_distinctKeys.mp hk
            rwa [map_key_foldl_addMarker] at this
          have hk3 : k ∈ distinctKeys (st.versions.map (·.key)) := by
            rcases List.mem_append.mp hk2 with h1 | h2
            · exact mem_distinctKeys.mpr h1
            · exact absurd h2 hmem
          rw [hL]
          unfold liveKeysUnder
          exact List.mem_filter.mpr ⟨hk3, by simp [hs, hlive]⟩
      · have hs' : startsWithS k p = false := by
          cases hv : startsWithS k p
          · rfl
          · exact absurd hv hs
        simp [hs']
  exact main _ rfl

theorem cleanupDeletes_allOk (cleanOk : String → Bool) (h : ∀ k, cleanOk k = true) :
    ∀ (ks : List String) (st : Store), cleanupDeletes st cleanOk ks = ks.foldl addMarker st := by
  intro ks
  induction ks with
  | nil => intro st; rfl
  | cons k ks ih => intro st; rw [cleanupDeletes, if_pos (h k), ih, List.foldl_cons]

/-! ## Lemmas about hard-deleting one key's versions -/

theorem filter_ne_of_remove (l : List ObjVersion) (k : String) (vid : Nat) :
    (l.filter (fun v => !(v.key == k && v.versionId == vid))).filter (fun v => !(v.key == k))
      = l.filter (fun v => !(v.key == k)) := by
  rw [List.filter_filter]
  apply filter_congr_mem
  intro v _
  cases hA : (v.key == k) <;> cases hB : (v.versionId == vid) <;> simp [hA, hB]

theorem frame_delVersion (o : StoreOracle) (k : String) (vid : Nat) (a : PurgeAcc)
    (R : List ObjVersion)
    (h : a.store.versions.filter (fun v => !(v.key == k)) = R) :
    (delVersion o a k vid).store.versions.filter (fun v => !(v.key == k)) = R := by
  unfold delVersion
  split
  · dsimp only [removeVersion]
    rw [filter_ne_of_remove, h]
  · exact h

/-- The versions of every key other than `k` survive the fold of per-version
deletes untouched, whatever the transport outcomes. -/
theorem hard_key_acc_frame (o : StoreOracle) (k : String) (a : PurgeAcc) :
    (s3_hard_delete_key_acc o k a).store.versions.filter (fun v => !(v.key == k))
      = a.store.versions.filter (fun v => !(v.key == k)) := by
  unfold s3_hard_delete_key_acc
  exact foldl_inv
    (P := fun b => b.store.versions.filter (fun v => !(v.key == k))
      = a.store.versions.filter (fun v => !(v.key == k)))
    (fun b (v : ObjVersion) hb => frame_delVersion o k v.versionId b _ hb) _ _
    (foldl_inv
      (fun b (v : ObjVersion) hb => frame_delVersion o k v.versionId b _ hb) _ _ rfl)

theorem store_foldl_delVersion_allOk (k : String) :
    ∀ (es : List ObjVersion) (a : PurgeAcc),
      (es.foldl (fun acc v => delVersion allOk acc k v.versionId) a).store
        = es.foldl (fun s v => removeVersion s k v.versionId) a.store := by
  intro es
  induction es with
  | nil => intro a; rfl
  | cons e es ih =>
    intro a
    rw [List.foldl_cons, List.foldl_cons, ih]
    simp [delVersion, allOk]

theorem foldl_removeVersion_versions (k : String) :
    ∀ (es : List ObjVersion) (s : Store),
      (es.foldl (fun st v => removeVersion st k v.versionId) s).versions
        = s.versions.filter
            (fun v => !(v.key == k && memB v.versionId (es.map (·.versionId)))) := by
  intro es
  induction es with
  | nil =>
    intro s
    simp only [List.foldl_nil, List.map_nil]
    have : (fun (v : ObjVersion) => !(v.key == k && memB v.versionId [])) =
        (fun _ => true) := by
      funext v
      simp [memB]
    rw [this, List.filter_true]
  | cons e es ih =>
    intro s
    rw [List.foldl_cons, ih]
    dsimp only [removeVersion]
    rw [List.filter_filter]
    apply filter_congr_mem
    intro v _
    cases hA : (v.key == k) <;> cases hB : (v.versionId == e.versionId) <;>
      cases hM : memB v.versionId (es.map (·.versionId)) <;>
        simp [List.map_cons, memB, hA, hB, hM]

theorem startsWithS_refl (k : String) : startsWithS k k = true := by
  unfold startsWithS
  have h := isPrefixOf_self_append k.data []
  rwa [List.append_nil] at h

theorem remove_all_of_key (st : Store) (k : String) (es : List ObjVersion)
    (hcover : ∀ v ∈ st.versions, v.key = k → v.versionId ∈ es.map (·.versionId)) :
    (es.foldl (fun s v => removeVersion s k v.versionId) st).versions
      = st.versions.filter (fun v => !(v.key == k)) := by
  rw [foldl_removeVersion_versions]
  apply filter_congr_mem
  intro v hv
  cases hA : (v.key == k)
  · simp [hA]
  · have hkeq : v.key = k := by simpa using hA
    have hm := memB_eq_true_of_mem (hcover v hv hkeq)
    simp [hA, hm]

/-- With all deletes succeeding, the hard purge of one key removes exactly
that key's versions and markers. -/
theorem hard_key_allOk_versions (st : Store) (k : String) :
    (s3_hard_delete_key_all_versions st allOk k).2.versions
      = st.versions.filter (fun v => !(v.key == k)) := by
  simp only [s3_hard_delete_key_all_versions, s3_hard_delete_key_acc]
  rw [store_foldl_delVersion_allOk, store_foldl_delVersion_allOk, ← List.foldl_append]
  apply remove_all_of_key
  intro v hv hkeq
  dsimp only at hv
  have hA : (v.key == k) = true := by simpa using hkeq
  have hsnap : v ∈ (versionsUnder st k).filter (fun w => w.key == k) := by
    refine List.mem_filter.mpr ⟨?_, by simp [hA]⟩
    unfold versionsUnder
    exact List.mem_filter.mpr ⟨hv, by simp [hkeq, startsWithS_refl]⟩
  rw [List.map_append]
  cases hm : v.isDeleteMarker
  · exact List.mem_append.mpr (Or.inl (List.mem_map_of_mem _
      (List.mem_filter.mpr ⟨hsnap, by simp [hm]⟩)))
  · exact List.mem_append.mpr (Or.inr (List.mem_map_of_mem _
      (List.mem_filter.mpr ⟨hsnap, by simp [hm]⟩)))

/-! ## Ingestion-loop lemmas -/

theorem startsWithS_chain (p a b c d : String) :
    startsWithS (p ++ a ++ b ++ c ++ d) p = true :=
  startsWithS_append_right _ _ _ (startsWithS_append_right _ _ _
    (startsWithS_append_right _ _ _ (startsWithS_self_append p a)))

/-- Every object the per-file loop uploads has a key beginning with the
event prefix. -/
theorem ingestLoop_uploads_keys (cfg : Config) (upOk thOk : String → Bool)
    (basePref clip_id : String) (dur : Nat) :
    ∀ (cands : List DlFile) (s : IngestState),
      s.uploads.all (fun so => startsWithS so.key basePref) = true →
      (ingestLoop cfg upOk thOk basePref clip_id dur cands s).1.uploads.all
        (fun so => startsWithS so.key basePref) = true := by
  intro cands
  induction cands with
  | nil => intro s h; exact h
  | cons f fs ih =>
    intro s h
    simp only [ingestLoop]
    by_cases h1 : f.isFile
    case neg =>
      simp only [Bool.not_eq_true] at h1
      simp only [h1, Bool.not_false, if_true]
      exact ih s h
    case pos =>
      simp only [h1, Bool.not_true, Bool.false_eq_true, if_false]
      by_cases h2 : (f.size == 0) = true
      case pos =>
        simp only [h2, if_true]
        exact ih s h
      case neg =>
        simp only [Bool.not_eq_true] at h2
        simp only [h2, Bool.false_eq_true, if_false]
        by_cases h3 : upOk (basePref ++
          (if endsWithS (toLowerS f.name) ".mp4" then f.name else dropExt f.name ++ ".mp4"))
        case neg =>
          simp only [Bool.not_eq_true] at h3
          simp only [h3, Bool.not_false, if_true]
          exact h
        case pos =>
          simp only [h3, Bool.not_true, Bool.false_eq_true, if_false]
          by_cases h4 : thOk (basePref ++ clip_id ++ "_thumb_" ++
            (match fSearch f.name.data with | some n => toString n ++ "p" | none => "best")
            ++ ".jpg")
          · simp only [h4, if_true]
            apply ih
            simp [List.all_append, h, startsWithS_self_append, startsWithS_chain]
          · simp only [Bool.not_eq_true] at h4
            simp only [h4, Bool.false_eq_true, if_false]
            apply ih
            simp [List.all_append, h, startsWithS_self_append]

/-- The per-file loop produces the same variant list and the same abort
outcome whatever the thumbnail oracle says: thumbnail failures only affect
`thumbs_info` and the thumbnail uploads. -/
theorem ingestLoop_thumb_indep (cfg : Config) (upOk th1 th2 : String → Bool)
    (basePref clip_id : String) (dur : Nat) :
    ∀ (cands : List DlFile) (s1 s2 : IngestState), s1.variants = s2.variants →
      (ingestLoop cfg upOk th1 basePref clip_id dur cands s1).1.variants
          = (ingestLoop cfg upOk th2 basePref clip_id dur cands s2).1.variants
        ∧ (ingestLoop cfg upOk th1 basePref clip_id dur cands s1).2
          = (ingestLoop cfg upOk th2 basePref clip_id dur cands s2).2 := by
  intro cands
  induction cands with
  | nil => intro s1 s2 h; exact ⟨h, rfl⟩
  | cons fl fs ih =>
    intro s1 s2 h
    simp only [ingestLoop]
    by_cases h1 : fl.isFile
    case neg =>
      simp only [Bool.not_eq_true] at h1
      simp only [h1, Bool.not_false, if_true]
      exact ih s1 s2 h
    case pos =>
      simp only [h1, Bool.not_true, Bool.false_eq_true, if_false]
      by_cases h2 : (fl.size == 0) = true
      case pos =>
        simp only [h2, if_true]
        exact ih s1 s2 h
      case neg =>
        simp only [Bool.not_eq_true] at h2
        simp only [h2, Bool.false_eq_true, if_false]
        by_cases h3 : upOk (basePref ++
          (if endsWithS (toLowerS fl.name) ".mp4" then fl.name else dropExt fl.name ++ ".mp4"))
        case neg =>
          simp only [Bool.not_eq_true] at h3
          simp only [h3, Bool.not_false, if_true]
          exact ⟨h, by trivial⟩
        case pos =>
          simp only [h3, Bool.not_true, Bool.false_eq_true, if_false]
          apply ih
          dsimp only
          repeat' split
          all_goals simpa using h

/-- With a thumbnail oracle that always fails, the loop records no
thumbnails. -/
theorem ingestLoop_thumbs_none (cfg : Config) (upOk thOk : String → Bool)
    (hth : ∀ k, thOk k = false) (basePref clip_id : String) (dur : Nat) :
    ∀ (cands : List DlFile) (s : IngestState),
      (ingestLoop cfg upOk thOk basePref clip_id dur cands s).1.thumbs = s.thumbs := by
  intro cands
  induction cands with
  | nil => intro s; rfl
  | cons fl fs ih =>
    intro s
    simp only [ingestLoop]
    by_cases h1 : fl.isFile
    case neg =>
      simp only [Bool.not_eq_true] at h1
      simp only [h1, Bool.not_false, if_true]
      exact ih s
    case pos =>
      simp only [h1, Bool.not_true, Bool.false_eq_true, if_false]
      by_cases h2 : (fl.size == 0) = true
      case pos =>
        simp only [h2, if_true]
        exact ih s
      case neg =>
        simp only [Bool.not_eq_true] at h2
        simp only [h2, Bool.false_eq_true, if_false]
        by_cases h3 : upOk (basePref ++
          (if endsWithS (toLowerS fl.name) ".mp4" then fl.name else dropExt fl.name ++ ".mp4"))
        case neg =>
          simp only [Bool.not_eq_true] at h3
          simp only [h3, Bool.not_false, if_true]
        case pos =>
          simp only [h3, Bool.not_true, Bool.false_eq_true, if_false]
          rw [hth, if_neg (by simp)]
          rw [ih]

/-- The remote-clip ingestion removes its scratch directory on every exit
path (the `try/finally`). -/
theorem ingestPost_scratchRemoved (cfg : Config) (cid : String) (r : IngestState × Bool) :
    (ingestPost cfg cid r).scratchRemoved = true := by
  simp only [ingestPost]
  repeat' split
  all_goals rfl

theorem ingest_scratchRemoved (cfg : Config) (env : IngestEnv) (dest : Option Nat)
    (st : Store) :
    (ingest_twitch_clip_to_b2 cfg env dest st).scratchRemoved = true := by
  unfold ingest_twitch_clip_to_b2
  cases env.probe with
  | none => rfl
  | some info =>
    dsimp only
    split
    · rfl
    · exact ingestPost_scratchRemoved _ _ _

theorem ingestPost_uploads (cfg : Config) (cid : String) (r : IngestState × Bool) :
    (ingestPost cfg cid r).uploads = r.1.uploads := by
  simp only [ingestPost]
  repeat' split
  all_goals rfl

/-- The assembled result depends only on the loop's variant list and abort
flag. -/
theorem ingestPost_result_congr (cfg : Config) (cid : String) (r r2 : IngestState × Bool)
    (hv : r.1.variants = r2.1.variants) (hb : r.2 = r2.2) :
    (ingestPost cfg cid r).result = (ingestPost cfg cid r2).result := by
  simp only [ingestPost]
  rw [hb, hv]
  cases h2 : r2.2
  · cases h3 : r2.1.variants.isEmpty
    · cases h4 : sortVariantsBuggy r2.1.variants <;> rfl
    · rfl
  · rfl

theorem ingestPost_bestThumb_none (cfg : Config) (cid : String) (r : IngestState × Bool)
    (h : r.1.thumbs = []) : (ingestPost cfg cid r).bestThumb = none := by
  simp only [ingestPost]
  rw [h]
  cases h2 : r.2
  · cases h3 : r.1.variants.isEmpty
    · cases h4 : sortVariantsBuggy r.1.variants <;> rfl
    · rfl
  · rfl

/-- The manual-upload branch removes its scratch directory whenever it
returns normally. -/
theorem upload_scratchRemoved_of_ok (cfg : Config) (env : UploadEnv) (db : Db) (st : Store)
    (h : (admin_events_new_upload cfg env db st).result.isOk = true) :
    (admin_events_new_upload cfg env db st).scratchRemoved = true := by
  unfold admin_events_new_upload at h ⊢
  by_cases hu : env.uploadOk
  · simp only [hu, Bool.not_true, Bool.false_eq_true, if_false]
  · simp only [Bool.not_eq_true] at hu
    simp only [hu, Bool.not_false, if_true] at h
    cases h

/-! ## Claim theorems -/

/-- Claim C2: for every event, the variant list of `fetch_event_videos_map`
is sorted by descending parsed height; the subsequence at each fixed parsed
height is exactly the insertion-order subsequence (so equal heights keep
their original relative order); and labels without a 3-4-digit height
followed by `p`, such as "source" and "best", count as height 0 (and hence
sort last, by the descending sortedness). -/
theorem c2_fetch_event_videos_sorted (db : Db) (eid : Nat) :
    List.Pairwise (fun a b => quality_key b.quality_label ≤ quality_key a.quality_label)
        (fetch_event_videos_sorted db eid)
      ∧ (∀ n : Nat, (fetch_event_videos_sorted db eid).filter
            (fun r => quality_key r.quality_label == n)
          = (db.eventVideos.filter (fun r => r.event_id == eid)).filter
            (fun r => quality_key r.quality_label == n))
      ∧ quality_key "source" = 0 ∧ quality_key "best" = 0 :=
  ⟨pairwise_sortDesc _ _, fun n => filter_sortDesc _ n _, by decide, by decide⟩

/-- Claim C5: icon processing decodes, then rejects non-square images, then
rejects edges below 32 pixels, re-encodes a 32–128 pixel square at its
original size as PNG, and downscales a larger square to exactly 128×128 —
always emitting PNG at the streamer's fixed key. -/
theorem c5_icon_validation (sid : Nat) :
    (∀ w h : Nat, w ≠ h → upload_streamer_icon (some (w, h)) sid = .error .notSquare)
    ∧ (∀ s : Nat, s < 32 → upload_streamer_icon (some (s, s)) sid = .error .tooSmall)
    ∧ (∀ s : Nat, 32 ≤ s → s ≤ 128 → upload_streamer_icon (some (s, s)) sid
        = .ok ((s, s), "assets/icons/streamer_" ++ toString sid ++ ".png", "image/png"))
    ∧ (∀ s : Nat, 128 < s → upload_streamer_icon (some (s, s)) sid
        = .ok ((128, 128), "assets/icons/streamer_" ++ toString sid ++ ".png", "image/png"))
    ∧ upload_streamer_icon none sid = .error .decodeFailed := by
  refine ⟨?_, ?_, ?_, ?_, rfl⟩
  · intro w h hne
    simp [upload_streamer_icon, hne]
  · intro s hs
    simp [upload_streamer_icon, hs]
  · intro s h1 h2
    have h3 : ¬ s < 32 := by omega
    have h4 : ¬ s > 128 := by omega
    simp [upload_streamer_icon, h3, h4]
  · intro s h1
    have h3 : ¬ s < 32 := by omega
    simp [upload_streamer_icon, h3, h1]

/-- Witness for C5 at the spec's concrete shapes: 100×50 rejected as
non-square, 20×20 rejected as too small, 32×32 kept at 32×32, 200×200
downscaled to 128×128. -/
theorem c5_icon_validation_witness :
    upload_streamer_icon (some (100, 50)) 9 = .error .notSquare
    ∧ upload_streamer_icon (some (20, 20)) 9 = .error .tooSmall
    ∧ upload_streamer_icon (some (32, 32)) 9
        = .ok ((32, 32), "assets/icons/streamer_" ++ toString 9 ++ ".png", "image/png")
    ∧ upload_streamer_icon (some (200, 200)) 9
        = .ok ((128, 128), "assets/icons/streamer_" ++ toString 9 ++ ".png", "image/png") :=
  ⟨(c5_icon_validation 9).1 100 50 (by decide),
   (c5_icon_validation 9).2.1 20 (by decide),
   (c5_icon_validation 9).2.2.1 32 (by decide) (by decide),
   (c5_icon_validation 9).2.2.2.1 200 (by decide)⟩

/-- Claim C10: hard-purging all versions of one key deletes only versions
and delete markers whose key is exactly the given key — every version of
any other key, including keys sharing the given key as a proper prefix, is
untouched for every transport-failure pattern; and when all deletes succeed
exactly the exact-key versions are removed. -/
theorem c10_hard_delete_exact_key (st : Store) (o : StoreOracle) (k : String) :
    ((s3_hard_delete_key_all_versions st o k).2.versions.filter (fun v => !(v.key == k))
        = st.versions.filter (fun v => !(v.key == k)))
    ∧ ((s3_hard_delete_key_all_versions st allOk k).2.versions
        = st.versions.filter (fun v => !(v.key == k))) := by
  constructor
  · have h := hard_key_acc_frame o k
      { deleted := 0, errors := 0, attempts := 0, store := st }
    simpa [s3_hard_delete_key_all_versions] using h
  · exact hard_key_allOk_versions st k

/-- Claim C4: the purge route never escalates a storage failure — for every
pattern of per-object delete failures it completes, every delete attempt is
accounted as either a deletion or an error (so `deleted + errors` equals the
number of attempts), the `events` row is removed regardless, and with no
failures the error count is zero. -/
theorem c4_purge_never_raises (db : Db) (st : Store) (o : StoreOracle) (eid : Nat) :
    ((admin_events_delete db st o eid).db.events = db.events.filter (fun e => !(e.id == eid)))
    ∧ ((admin_events_delete db st o eid).counts.1 + (admin_events_delete db st o eid).counts.2
        = (admin_events_delete db st o eid).attempts)
    ∧ ((admin_events_delete db st allOk eid).counts.2 = 0) := by
  refine ⟨?_, ?_, ?_⟩
  · simp only [admin_events_delete, delete_event]
  · simp only [admin_events_delete]
    exact balanced_purge_storage db st o eid
  · simp only [admin_events_delete]
    exact errors0_purge_storage db st eid

/-- Claim C3 counterexample: an event with one stored variant and one live
object, purged twice with every storage operation succeeding — the second
purge reports `(10, 0)`, not `(0, 0)`: the three conventional keys are
deleted unconditionally (a versioned-bucket delete of an absent key
succeeds), the variant row survives `delete_event` because foreign-key
enforcement is never enabled on that connection, and the delete markers the
first purge itself left behind are deleted and re-counted. -/
theorem c3_counterexample :
    (admin_events_delete (admin_events_delete c3db c3st allOk 5).db
        (admin_events_delete c3db c3st allOk 5).store allOk 5).counts ≠ (0, 0) := by
  decide

/-- Claim C3 (amended): a second purge immediately after a complete first
purge (all storage operations succeeding, no intervening writes) reports
zero errors, but its deleted count is at least 3 — never `(0, 0)`. -/
theorem c3_amended_second_purge (db : Db) (st : Store) (eid : Nat) :
    ((admin_events_delete (admin_events_delete db st allOk eid).db
        (admin_events_delete db st allOk eid).store allOk eid).counts.2 = 0)
    ∧ 3 ≤ (admin_events_delete (admin_events_delete db st allOk eid).db
        (admin_events_delete db st allOk eid).store allOk eid).counts.1 := by
  constructor
  · simp only [admin_events_delete]
    exact errors0_purge_storage _ _ _
  · simp only [admin_events_delete]
    exact purge_storage_deleted_ge_three _ _ _

/-- Claim C6 counterexample: on the manual-upload branch, when the video
upload to the object store raises, the exception propagates and the scratch
directory is not removed — the `shutil.rmtree` sits on the success path
only, with no `try/finally`. -/
theorem c6_counterexample :
    (admin_events_new_upload c6cfg c6envFail c6db c6st).scratchRemoved = false := by
  decide

/-- Claim C6 (amended): the remote-clip ingestion removes its scratch
directory on every exit path (its `try/finally`), while the manual-upload
branch removes its scratch directory only when it returns normally. -/
theorem c6_amended_scratch_cleanup :
    (∀ (cfg : Config) (env : IngestEnv) (dest : Option Nat) (st : Store),
      (ingest_twitch_clip_to_b2 cfg env dest st).scratchRemoved = true)
    ∧ (∀ (cfg : Config) (uenv : UploadEnv) (db : Db) (st : Store),
      (admin_events_new_upload cfg uenv db st).result.isOk = true →
      (admin_events_new_upload cfg uenv db st).scratchRemoved = true) :=
  ⟨fun cfg env dest st => ingest_scratchRemoved cfg env dest st,
   fun cfg uenv db st h => upload_scratchRemoved_of_ok cfg uenv db st h⟩

/-- Witness for the amended C6: a failed probe still removes the remote
path's scratch directory, and a fully successful manual upload removes its
own. -/
theorem c6_amended_scratch_cleanup_witness :
    (ingest_twitch_clip_to_b2 c6cfg
        { probe := none, downloadOk := true, files := [],
          uploadOk := fun _ => true, thumbOk := fun _ => true } (some 7) c6st).scratchRemoved
      = true
    ∧ (admin_events_new_upload c6cfg c6envOk c6db c6st).scratchRemoved = true :=
  ⟨c6_amended_scratch_cleanup.1 c6cfg _ (some 7) c6st,
   c6_amended_scratch_cleanup.2 c6cfg c6envOk c6db c6st (by decide)⟩

/-- Claim C1 (code bug): a clip resolving to a 360p and a 720p rendition,
discovered in that order, leaves the committed variant list in discovery
order and points the event's `video_url` at the 360p object — the announced
"sort best-first" before the commit is a no-op because its key regex is
written `r"(\ \d{3,4})p"` with a doubled backslash (matching a literal
backslash, so every label keys to 0 and the stable sort keeps discovery
order), while the sibling regexes in the same file use the intended single
backslash. -/
theorem c1_sort_regex_code_bug :
    ((admin_events_new_clip c1cfg c1env (fun _ => true) "https://clips.twitch.tv/x"
        c1db c1st).db.events.map (fun e => e.video_url)
      = ["https://cdn/clips/7/abc_360p.mp4"])
    ∧ ((admin_events_new_clip c1cfg c1env (fun _ => true) "https://clips.twitch.tv/x"
        c1db c1st).db.eventVideos.map (fun r => r.quality_label)
      = ["360p", "720p"]) := by
  decide

theorem isPrefixOf_append_cancel (a b c : List Char) :
    (a ++ b).isPrefixOf (a ++ c) = b.isPrefixOf c := by
  induction a with
  | nil => rfl
  | cons x xs ih => simp [List.isPrefixOf_cons₂, ih]

theorem startsWithS_slash_thumb (t : String) :
    startsWithS (("clips/" ++ t) ++ "/thumb.jpg") (("clips/" ++ t) ++ "/") = true := by
  unfold startsWithS
  simp only [sdata_append]
  rw [isPrefixOf_append_cancel]
  decide

/-- Claim C8: every object key an ingestion call uploads for event id `E`
begins with `clips/E/` — each video and each thumbnail key of the
remote-clip path when a destination event id is supplied, and both keys of
the local-upload path (whose event id is the one assigned by
`create_event`, i.e. the store's next id). -/
theorem c8_keys_under_event_prefix (cfg : Config) (env : IngestEnv) (E : Nat) (st : Store)
    (uenv : UploadEnv) (db : Db) (st2 : Store) :
    ((ingest_twitch_clip_to_b2 cfg env (some E) st).uploads.all
        (fun so => startsWithS so.key ("clips/" ++ toString E ++ "/")) = true)
    ∧ ((admin_events_new_upload cfg uenv db st2).uploads.all
        (fun so => startsWithS so.key ("clips/" ++ toString db.nextId ++ "/")) = true) := by
  constructor
  · unfold ingest_twitch_clip_to_b2
    cases env.probe with
    | none => rfl
    | some info =>
      dsimp only
      split
      · rfl
      · rw [ingestPost_uploads]
        exact ingestLoop_uploads_keys cfg _ _ _ _ info.duration _ _ rfl
  · unfold admin_events_new_upload
    by_cases hu : uenv.uploadOk
    case neg =>
      simp only [Bool.not_eq_true] at hu
      simp only [hu, Bool.not_false, if_true]
      rfl
    case pos =>
      simp only [hu, Bool.not_true, Bool.false_eq_true, if_false]
      by_cases ht : uenv.thumbOk
      · simp only [ht, if_true]
        simp only [List.all_cons, List.all_nil, Bool.and_eq_true]
        refine ⟨?_, ?_, trivial⟩
        · exact startsWithS_append_right _ _ _ (startsWithS_self_append _ _)
        · exact startsWithS_slash_thumb _
      · simp only [Bool.not_eq_true] at ht
        simp only [ht, Bool.false_eq_true, if_false]
        simp only [List.all_cons, List.all_nil, Bool.and_eq_true]
        exact ⟨startsWithS_append_right _ _ _ (startsWithS_self_append _ _), trivial⟩

/-- Claim C9: thumbnail extraction or thumbnail-upload failures never abort
the ingestion — replacing the thumbnail oracle by any other (including one
that always fails) leaves the returned `(clip_id, variants)` result, and in
particular each variant's video record and the success/failure of the call,
unchanged; with every thumbnail failing, the event simply records no
thumbnail. -/
theorem c9_thumbnail_failures_never_abort (cfg : Config) (env : IngestEnv)
    (dest : Option Nat) (st : Store) (f : String → Bool) :
    ((ingest_twitch_clip_to_b2 cfg { env with thumbOk := f } dest st).result
        = (ingest_twitch_clip_to_b2 cfg env dest st).result)
    ∧ ((ingest_twitch_clip_to_b2 cfg { env with thumbOk := fun _ => false } dest st).bestThumb
        = none) := by
  constructor
  · unfold ingest_twitch_clip_to_b2
    cases env.probe with
    | none => rfl
    | some info =>
      dsimp only
      by_cases hd : env.downloadOk
      case neg =>
        simp only [Bool.not_eq_true] at hd
        simp only [hd, Bool.not_false, if_true]
      case pos =>
        simp only [hd, Bool.not_true, Bool.false_eq_true, if_false]
        obtain ⟨hv, hb⟩ := ingestLoop_thumb_indep cfg env.uploadOk f env.thumbOk
          (match dest with
            | some e => "clips/" ++ toString e ++ "/"
            | none => "clips/" ++ (if info.id == "" then "clip" else info.id) ++ "/")
          (if info.id == "" then "clip" else info.id) info.duration
          (env.files.filter (fun fl =>
            startsWithS fl.name ((if info.id == "" then "clip" else info.id) ++ "_")
              && !endsWithS fl.name ".download"))
          { variants := [], thumbs := [], uploads := [], store := st }
          { variants := [], thumbs := [], uploads := [], store := st } rfl
        exact ingestPost_result_congr cfg _ _ _ hv hb
  · unfold ingest_twitch_clip_to_b2
    cases env.probe with
    | none => rfl
    | some info =>
      dsimp only
      by_cases hd : env.downloadOk
      case neg =>
        simp only [Bool.not_eq_true] at hd
        simp only [hd, Bool.not_false, if_true]
      case pos =>
        simp only [hd, Bool.not_true, Bool.false_eq_true, if_false]
        exact ingestPost_bestThumb_none cfg _ _
          (ingestLoop_thumbs_none cfg env.uploadOk (fun _ => false) (fun _ => rfl) _ _ _ _ _)

/-- Claim C7: when the remote-clip ingestion fails (probe or download
raises, an upload raises, or zero variants are produced), the caller-driven
rollback leaves zero variant rows for the placeholder event, removes the
placeholder event row, and leaves zero live objects under the placeholder's
`clips/<id>/` prefix — provided the rollback's own store deletes succeed,
and given referential integrity of the pre-existing variant rows (ids below
the store's next fresh id). -/
theorem c7_failed_ingest_rollback (cfg : Config) (env : IngestEnv) (cleanOk : String → Bool)
    (url : String) (db : Db) (st : Store)
    (hWFv : ∀ r ∈ db.eventVideos, r.event_id < db.nextId)
    (hfail : (ingest_twitch_clip_to_b2 cfg env (some db.nextId) st).result = .error ())
    (hclean : ∀ k, cleanOk k = true) :
    ((admin_events_new_clip cfg env cleanOk url db st).db.eventVideos.filter
        (fun r => r.event_id == db.nextId) = [])
    ∧ ((admin_events_new_clip cfg env cleanOk url db st).db.events.filter
        (fun e => e.id == db.nextId) = [])
    ∧ (liveKeysUnder (admin_events_new_clip cfg env cleanOk url db st).store
        ("clips/" ++ toString db.nextId ++ "/") = []) := by
  refine ⟨?_, ?_, ?_⟩
  · simp only [admin_events_new_clip, create_event, hfail, delete_event]
    apply filter_eq_nil_of_all_false
    intro r hr
    have hlt := hWFv r hr
    simp only [beq_eq_false_iff_ne, ne_eq]
    omega
  · simp only [admin_events_new_clip, create_event, hfail, delete_event]
    apply filter_eq_nil_of_all_false
    intro e he
    have h2 := (List.mem_filter.mp he).2
    simpa using h2
  · simp only [admin_events_new_clip, create_event, hfail]
    rw [cleanupDeletes_allOk cleanOk hclean]
    exact liveKeysUnder_after_mark _ _

/-- Witness for C7: an unresolvable clip reference (the probe raises) on an
empty store — the rollback leaves no variant rows, no event row, and no
live objects under `clips/1/`. -/
theorem c7_failed_ingest_rollback_witness :
    ((admin_events_new_clip c7cfg c7env (fun _ => true) "u" c7db c7st).db.eventVideos.filter
        (fun r => r.event_id == c7db.nextId) = [])
    ∧ ((admin_events_new_clip c7cfg c7env (fun _ => true) "u" c7db c7st).db.events.filter
        (fun e => e.id == c7db.nextId) = [])
    ∧ (liveKeysUnder (admin_events_new_clip c7cfg c7env (fun _ => true) "u" c7db c7st).store
        ("clips/" ++ toString c7db.nextId ++ "/") = []) :=
  c7_failed_ingest_rollback c7cfg c7env (fun _ => true) "u" c7db c7st
    (by intro r hr; cases hr) (by rfl) (fun _ => rfl)

